import Mathlib

/-!
Verification of the silk repository's specification against its source.

The development shallowly embeds the two source components present in
`src/` — the value model (`parse/value.go`) and the assertion engine
(`runner` package, `part_001`) — as executable Lean definitions, and
settles the frozen claims about them.

Conventions:
* Go's `interface{}` universe of JSON-decoded data is the mutual
  inductive `GoData` / `GoDataList` / `GoFields`.  Go decodes every JSON
  number to `float64`; the `float` constructor carries an exact rational
  (all values exercised here are exactly representable, and the source
  performs no floating-point arithmetic, only equality).  The `int`
  constructor models a Go `int` dynamic value (a `Value.Equal` argument
  may hold one even though JSON decoding never produces it).
* Go code that can panic is modelled with `Option`: a `none` result
  stands for a runtime panic.
* Functions of external collaborators (Go's `regexp`, `encoding/json`,
  `fmt`, the `cheekybits/m` path lookup) are modelled faithfully on the
  fragment of their behaviour the source exercises; each model's doc
  comment states its scope.
-/

mutual

inductive GoData where
  | null
  | bool (b : Bool)
  | int (n : Int)
  | float (q : Rat)
  | str (s : String)
  | arr (xs : GoDataList)
  | obj (fs : GoFields)

inductive GoDataList where
  | nil
  | cons (x : GoData) (xs : GoDataList)

inductive GoFields where
  | nil
  | cons (k : String) (v : GoData) (fs : GoFields)

end

/-- Whether a Go interface value is `nil` (the JSON `null`). -/
def isNull : GoData → Bool
  | .null => true
  | _ => false

/-- Go `==` on two `interface{}` values, as used by `Value.Equal` and
`assertDetail`.  Values of different dynamic types compare unequal;
values of the same comparable type compare by value; comparing two
slices or two maps panics in Go, modelled as `none`. -/
def goEq : GoData → GoData → Option Bool
  | .null, .null => some true
  | .bool a, .bool b => some (if a = b then true else false)
  | .int a, .int b => some (if a = b then true else false)
  | .float a, .float b => some (if a = b then true else false)
  | .str a, .str b => some (if a = b then true else false)
  | .arr _, .arr _ => none
  | .obj _, .obj _ => none
  | _, _ => some false

/-- Boolean prefix test on character lists: `listPre p l` holds when `p`
is an initial segment of `l`. -/
def listPre : List Char → List Char → Bool
  | [], _ => true
  | _ :: _, [] => false
  | a :: as, b :: bs => a == b && listPre as bs

/-- Go `strings.HasPrefix s p`. -/
def strStarts (s p : String) : Bool := listPre p.data s.data

/-- Go `strings.HasSuffix s p`. -/
def strEnds (s p : String) : Bool := listPre p.data.reverse s.data.reverse

/-- Split a character list at every `.`, as `strings.Split(key, ".")`
does inside the `m` library's dotted-path lookup. -/
def splitDotAux : List Char → List Char → List String
  | [], acc => [⟨acc.reverse⟩]
  | '.' :: rest, acc => String.mk acc.reverse :: splitDotAux rest []
  | c :: rest, acc => splitDotAux rest (c :: acc)

/-- Split a string on `.` separators. -/
def splitDot (s : String) : List String := splitDotAux s.data []

/-- Decimal digits of a natural number, most significant first; the
fuel argument bounds the recursion and `n + 1` always suffices. -/
def natStrAux : Nat → Nat → List Char
  | 0, _ => []
  | fuel + 1, n =>
    if n == 0 then []
    else natStrAux fuel (n / 10) ++ [Char.ofNat (48 + n % 10)]

/-- Decimal rendering of a natural number. -/
def natStr (n : Nat) : String :=
  if n == 0 then "0" else ⟨natStrAux (n + 1) n⟩

/-- Decimal rendering of an integer, as Go prints one. -/
def intStr : Int → String
  | .ofNat n => natStr n
  | .negSucc n => "-" ++ natStr (n + 1)

/-- Smallest `k` with `1 ≤ k` such that `den` divides `10 ^ k`, searched
up to the fuel bound; `none` when the denominator is not a factor of a
power of ten in range. -/
def decExpAux : Nat → Nat → Nat → Option Nat
  | 0, _, _ => none
  | fuel + 1, den, k =>
    if (10 ^ k) % den == 0 then some k else decExpAux fuel den (k + 1)

/-- Left-pad a digit list with `0` characters to the given length. -/
def padZeros (cs : List Char) (len : Nat) : List Char :=
  List.replicate (len - cs.length) '0' ++ cs

/-- Rendering of a finite `float64` value as Go's `%v` (and
`encoding/json`) print it: integral values without a decimal point,
other exactly-representable values as a shortest plain decimal.  The
exponent notation Go switches to for very large or very small magnitudes
is outside the range this repository exercises and is not modelled. -/
def decimalString (q : Rat) : String :=
  if q.den == 1 then intStr q.num
  else
    match decExpAux 30 q.den 1 with
    | none => intStr q.num ++ "/" ++ natStr q.den
    | some k =>
      let m := q.num.natAbs * ((10 ^ k) / q.den)
      let ds := padZeros (natStr m).data (k + 1)
      let whole : String := ⟨ds.take (ds.length - k)⟩
      let frac : String := ⟨ds.drop (ds.length - k)⟩
      (if q.num < 0 then "-" else "") ++ whole ++ "." ++ frac

/-- Lexicographic comparison of character lists. -/
def charListLe : List Char → List Char → Bool
  | [], _ => true
  | _ :: _, [] => false
  | a :: as, b :: bs => if a == b then charListLe as bs else decide (a < b)

/-- String order used when Go's `fmt` and `encoding/json` sort map keys. -/
def strLe (a b : String) : Bool := charListLe a.data b.data

/-- Insert a rendered key/value pair into a list sorted by key. -/
def insertPair (p : String × String) : List (String × String) → List (String × String)
  | [] => [p]
  | q :: qs => if strLe p.1 q.1 then p :: q :: qs else q :: insertPair p qs

/-- Sort rendered key/value pairs by key (insertion sort), as Go sorts
map keys before printing a map. -/
def sortPairs (l : List (String × String)) : List (String × String) :=
  l.foldr insertPair []

/-- Join strings with a single separator between elements. -/
def joinSep (sep : String) : List String → String
  | [] => ""
  | [x] => x
  | x :: xs => x ++ sep ++ joinSep sep xs

/-- Hexadecimal digit character (lower case). -/
def hexDigitChar (n : Nat) : Char :=
  if n < 10 then Char.ofNat (48 + n) else Char.ofNat (87 + n)

/-- Escaping of one character inside a JSON string as Go's
`encoding/json` performs it (with its default HTML escaping). -/
def jsonEscapeChar (c : Char) : String :=
  if c == '"' then "\\\""
  else if c == '\\' then "\\\\"
  else if c == '\n' then "\\n"
  else if c == '\t' then "\\t"
  else if c == '\r' then "\\r"
  else if c == '<' then "\\u003c"
  else if c == '>' then "\\u003e"
  else if c == '&' then "\\u0026"
  else if c.toNat < 32 then
    "\\u00" ++ String.mk [hexDigitChar (c.toNat / 16), hexDigitChar (c.toNat % 16)]
  else String.mk [c]

/-- Escape every character of a JSON string body. -/
def jsonEscapeList : List Char → List Char
  | [] => []
  | c :: rest => (jsonEscapeChar c).data ++ jsonEscapeList rest

/-- JSON string-body escaping. -/
def jsonEscape (s : String) : String := ⟨jsonEscapeList s.data⟩

mutual

/-- Go `fmt.Sprintf("%v", x)` on an `interface{}` value, as the runner
uses it to stringify header/param values (src/unnamed/part_001 lines
138 and 145) and to stringify a value before regex matching
(src/parse/value.go line 41): `nil` prints `<nil>`, numbers print in
plain decimal, strings print verbatim, slices print `[e1 e2]`, and maps
print `map[k1:v1 k2:v2]` with keys sorted. -/
def sprintv : GoData → String
  | .null => "<nil>"
  | .bool b => if b then "true" else "false"
  | .int n => intStr n
  | .float q => decimalString q
  | .str s => s
  | .arr xs => "[" ++ joinSep (" ") (sprintvList xs) ++ "]"
  | .obj fs =>
    "map[" ++
      joinSep (" ") ((sortPairs (sprintvFieldsRaw fs)).map (fun p => p.1 ++ ":" ++ p.2))
      ++ "]"

/-- Renderings of the elements of a Go slice under `%v`. -/
def sprintvList : GoDataList → List String
  | .nil => []
  | .cons x xs => sprintv x :: sprintvList xs

/-- Renderings of a Go map's entries under `%v`, in stored order (the
caller sorts them by key as `fmt` does). -/
def sprintvFieldsRaw : GoFields → List (String × String)
  | .nil => []
  | .cons k v fs => (k, sprintv v) :: sprintvFieldsRaw fs

end

mutual

/-- Go `json.Marshal` on an `interface{}` value, the canonical JSON
rendering behind `Value.String` (src/parse/value.go lines 20-26):
`null`, booleans, plain-decimal numbers, quoted escaped strings,
`[e1,e2]` arrays and `{"k":v}` objects with keys sorted.  Marshalling a
`GoData` value never fails, so the source's panic branch is
unreachable in this model. -/
def jsonRender : GoData → String
  | .null => "null"
  | .bool b => if b then "true" else "false"
  | .int n => intStr n
  | .float q => decimalString q
  | .str s => "\"" ++ jsonEscape s ++ "\""
  | .arr xs => "[" ++ joinSep (",") (jsonRenderList xs) ++ "]"
  | .obj fs =>
    "\x7b" ++
      joinSep (",")
        ((sortPairs (jsonFieldsRaw fs)).map
          (fun p => "\"" ++ jsonEscape p.1 ++ "\":" ++ p.2))
      ++ "\x7d"

/-- JSON renderings of the elements of an array. -/
def jsonRenderList : GoDataList → List String
  | .nil => []
  | .cons x xs => jsonRender x :: jsonRenderList xs

/-- JSON renderings of an object's entries, in stored order. -/
def jsonFieldsRaw : GoFields → List (String × String)
  | .nil => []
  | .cons k v fs => (k, jsonRender v) :: jsonFieldsRaw fs

end

/-- Go `fmt.Sprintf("%T", x)`: the name of an interface value's dynamic
type, used only in diagnostics. -/
def goTypeName : GoData → String
  | .null => "<nil>"
  | .bool _ => "bool"
  | .int _ => "int"
  | .float _ => "float64"
  | .str _ => "string"
  | .arr _ => "[]interface \x7b\x7d"
  | .obj _ => "map[string]interface \x7b\x7d"

/-- The value model of src/parse/value.go: a single dynamically typed
datum. -/
structure Value where
  Data : GoData

/-- `Value.String` (src/parse/value.go lines 20-26): the canonical JSON
rendering of `Data`. -/
def Value.String (v : Value) := jsonRender v.Data

/-- `Value.Type` (src/parse/value.go lines 49-59): `"regex"` for a
string bounded by slashes, `"string"` for any other string, and the
dynamic type name otherwise. -/
def Value.Type (v : Value) :=
  match v.Data with
  | .str s => if strStarts s ("/") && strEnds s ("/") then "regex" else "string"
  | d => goTypeName d

/-- Abstract syntax of the regular-expression fragment the model
compiles: literal characters, `.`, character classes, concatenation,
alternation (used to express `?`) and Kleene star (`+` is expressed as
`r` followed by `r*`). -/
inductive RE where
  | void
  | eps
  | ch (c : Char)
  | any
  | cls (neg : Bool) (ranges : List (Char × Char))
  | seq (a b : RE)
  | alt (a b : RE)
  | star (a : RE)

/-- Whether a regular expression accepts the empty string. -/
def RE.nullable : RE → Bool
  | .void => false
  | .eps => true
  | .ch _ => false
  | .any => false
  | .cls _ _ => false
  | .seq a b => a.nullable && b.nullable
  | .alt a b => a.nullable || b.nullable
  | .star _ => true

/-- Whether a character falls in a class: inside one of the ranges, or
outside all of them when the class is negated. -/
def clsMatch (neg : Bool) (ranges : List (Char × Char)) (c : Char) : Bool :=
  let inR := ranges.any (fun p => decide (p.1 ≤ c) && decide (c ≤ p.2))
  if neg then !inR else inR

/-- Brzozowski derivative of a regular expression by one character.
As in Go's `regexp`, `.` matches any character except a newline. -/
def RE.deriv (c : Char) : RE → RE
  | .void => .void
  | .eps => .void
  | .ch d => if d == c then .eps else .void
  | .any => if c == '\n' then .void else .eps
  | .cls neg rs => if clsMatch neg rs c then .eps else .void
  | .seq a b =>
    if a.nullable then .alt (.seq (a.deriv c) b) (b.deriv c)
    else .seq (a.deriv c) b
  | .alt a b => .alt (a.deriv c) (b.deriv c)
  | .star a => .seq (a.deriv c) (.star a)

/-- Whether a regular expression matches a whole character list. -/
def matchFull (r : RE) (cs : List Char) : Bool :=
  (cs.foldl (fun r c => r.deriv c) r).nullable

/-- A compiled Go pattern: an optional leading `^` anchor, a body, and
an optional trailing `$` anchor. -/
structure GoRegex where
  anchorStart : Bool
  body : RE
  anchorEnd : Bool

/-- Go `Regexp.Match`: whether some substring of `s` — constrained to
start at the beginning when the pattern is `^`-anchored and to end at
the end when `$`-anchored — is matched by the body. -/
def goMatch (p : GoRegex) (s : String) : Bool :=
  let cs := s.data
  (List.range (cs.length + 1)).any (fun i =>
    (!p.anchorStart || i == 0) &&
    (List.range (cs.length - i + 1)).any (fun j =>
      (!p.anchorEnd || i + j == cs.length) && matchFull p.body ((cs.drop i).take j)))

/-- Parse the interior of a character class up to the closing `]`:
`a-b` ranges and single characters; a `-` immediately before `]` is the
literal `-`. -/
def parseClassBody : List Char → Option (List (Char × Char) × List Char)
  | [] => none
  | ']' :: rest => some ([], rest)
  | a :: '-' :: b :: rest =>
    if b == ']' then some ([(a, a), ('-', '-')], rest)
    else
      match parseClassBody rest with
      | some (rs, rest') => some ((a, b) :: rs, rest')
      | none => none
  | a :: rest =>
    match parseClassBody rest with
    | some (rs, rest') => some ((a, a) :: rs, rest')
    | none => none

/-- Parse one character class, handling a leading `^` negation. -/
def parseClass : List Char → Option (RE × List Char)
  | '^' :: rest =>
    match parseClassBody rest with
    | some (rs, r) => some (.cls true rs, r)
    | none => none
  | rest =>
    match parseClassBody rest with
    | some (rs, r) => some (.cls false rs, r)
    | none => none

/-- Parse one atom of a pattern body: `.`, a character class, or a
literal character.  Metacharacters that begin constructs outside the
modelled fragment — groups `(`/`)`, alternation `|`, counted repetition
`\x7b`/`\x7d`, escapes `\`, stray postfix operators and interior
anchors — are not accepted, so a pattern using them is treated as one
the model cannot compile. -/
def parseAtom : List Char → Option (RE × List Char)
  | [] => none
  | '.' :: rest => some (.any, rest)
  | '[' :: rest => parseClass rest
  | c :: rest =>
    if ['*', '+', '?', '(', ')', '|', '\x7b', '\x7d', '\\', '^', '$'].contains c then none
    else some (.ch c, rest)

/-- Parse a whole pattern body as a sequence of atoms with optional
postfix `*`, `+` or `?`; the fuel argument bounds the recursion and
`length + 1` always suffices because every atom consumes a character. -/
def parseSeq : Nat → List Char → Option RE
  | _, [] => some .eps
  | 0, _ :: _ => none
  | fuel + 1, cs =>
    match parseAtom cs with
    | none => none
    | some (atom, rest) =>
      match rest with
      | '*' :: r =>
        match parseSeq fuel r with
        | some t => some (.seq (.star atom) t)
        | none => none
      | '+' :: r =>
        match parseSeq fuel r with
        | some t => some (.seq (.seq atom (.star atom)) t)
        | none => none
      | '?' :: r =>
        match parseSeq fuel r with
        | some t => some (.seq (.alt .eps atom) t)
        | none => none
      | r =>
        match parseSeq fuel r with
        | some t => some (.seq atom t)
        | none => none

/-- Strip a leading `^` anchor. -/
def stripAnchorS : List Char → Bool × List Char
  | '^' :: t => (true, t)
  | cs => (false, cs)

/-- Strip a trailing `$` anchor. -/
def stripAnchorE (cs : List Char) : Bool × List Char :=
  match cs.reverse with
  | '$' :: t => (true, t.reverse)
  | _ => (false, cs)

/-- Model of Go `regexp.MustCompile` restricted to the syntax fragment
described at `parseAtom`; `none` models the compilation panic.  The
pattern `(` that claim C10 exercises is rejected by Go (missing closing
parenthesis) exactly as it is here. -/
def compileRegex (pat : String) : Option GoRegex :=
  let p1 := stripAnchorS pat.data
  let p2 := stripAnchorE p1.2
  match parseSeq (p2.2.length + 1) p2.2 with
  | some r => some ⟨p1.1, r, p2.1⟩
  | none => none

/-- The source's `str[1 : len(str)-1]` slice taking the interior of a
slash-delimited string (src/parse/value.go line 39); Go panics when the
string is the single character `/`, modelled as `none`. -/
def regexInner (s : String) : Option String :=
  if s.data.length < 2 then none else some ⟨(s.data.drop 1).dropLast⟩

/-- `Value.Equal` (src/parse/value.go lines 30-47).  A non-string datum
compares by Go `==`.  A string bounded by `/` has its interior compiled
as a regular expression and tested against the `%v` rendering of the
argument; a successful match returns `true`, and otherwise the function
falls through to Go `==`.  `none` models the panics the source can
raise (regex compilation failure, the slice panic on `Data = "/"`, and
Go `==` on two uncomparable values). -/
def Value.Equal (v : Value) (val : GoData) : Option Bool :=
  match v.Data with
  | .str s =>
    if strStarts s ("/") && strEnds s ("/") then
      match regexInner s with
      | none => none
      | some pat =>
        match compileRegex pat with
        | none => none
        | some re =>
          if goMatch re (sprintv val) then some true
          else goEq (.str s) val
    else goEq (.str s) val
  | d => goEq d val

/-- Drop leading JSON whitespace. -/
def skipWs (cs : List Char) : List Char :=
  cs.dropWhile (fun c => c == ' ' || c == '\t' || c == '\n' || c == '\r')

/-- Whether a character is a decimal digit. -/
def isDigitCh (c : Char) : Bool := decide ('0' ≤ c) && decide (c ≤ '9')

/-- Split a character list into its leading run of digits and the rest. -/
def takeDigits : List Char → List Char × List Char
  | [] => ([], [])
  | c :: rest =>
    if isDigitCh c then
      match takeDigits rest with
      | (ds, r) => (c :: ds, r)
    else ([], c :: rest)

/-- Numeric value of a digit list. -/
def digitsToNat (ds : List Char) : Nat :=
  ds.foldl (fun acc c => acc * 10 + (c.toNat - 48)) 0

/-- Numeric value of one hexadecimal digit, if any. -/
def hexVal (c : Char) : Option Nat :=
  if isDigitCh c then some (c.toNat - 48)
  else if decide ('a' ≤ c) && decide (c ≤ 'f') then some (c.toNat - 87)
  else if decide ('A' ≤ c) && decide (c ≤ 'F') then some (c.toNat - 70)
  else none

/-- Parse the body of a JSON string after the opening quote, returning
the decoded string and the input following the closing quote.  The
escapes `\" \\ \/ \b \f \n \r \t` and basic (non-surrogate-pair)
`\uXXXX` sequences are decoded. -/
def parseJStringAux : List Char → List Char → Option (String × List Char)
  | [], _ => none
  | '"' :: rest, acc => some (⟨acc.reverse⟩, rest)
  | '\\' :: 'u' :: h1 :: h2 :: h3 :: h4 :: rest, acc =>
    match hexVal h1, hexVal h2, hexVal h3, hexVal h4 with
    | some a, some b, some c, some d =>
      parseJStringAux rest (Char.ofNat (((a * 16 + b) * 16 + c) * 16 + d) :: acc)
    | _, _, _, _ => none
  | '\\' :: e :: rest, acc =>
    if e == '"' then parseJStringAux rest ('"' :: acc)
    else if e == '\\' then parseJStringAux rest ('\\' :: acc)
    else if e == '/' then parseJStringAux rest ('/' :: acc)
    else if e == 'n' then parseJStringAux rest ('\n' :: acc)
    else if e == 't' then parseJStringAux rest ('\t' :: acc)
    else if e == 'r' then parseJStringAux rest ('\r' :: acc)
    else if e == 'b' then parseJStringAux rest ('\x08' :: acc)
    else if e == 'f' then parseJStringAux rest ('\x0c' :: acc)
    else none
  | c :: rest, acc => parseJStringAux rest (c :: acc)

/-- Parse a JSON number into an exact rational: optional minus sign,
integer part without redundant leading zeros, optional fraction,
optional exponent.  (Go decodes into `float64`; the values this
repository exercises are exactly representable, see the module
comment.) -/
def parseJNum (cs : List Char) : Option (Rat × List Char) :=
  let sign : Bool × List Char :=
    match cs with
    | '-' :: rest => (true, rest)
    | _ => (false, cs)
  match takeDigits sign.2 with
  | ([], _) => none
  | (d :: ds, rest1) =>
    if d == '0' && ds ≠ [] then none
    else
      let intPart : Nat := digitsToNat (d :: ds)
      let fracStep : Option (Rat × List Char) :=
        match rest1 with
        | '.' :: rest2 =>
          match takeDigits rest2 with
          | ([], _) => none
          | (fs, rest3) =>
            some ((intPart : Rat) + (digitsToNat fs : Rat) / ((10 : Rat) ^ fs.length), rest3)
        | _ => some ((intPart : Rat), rest1)
      match fracStep with
      | none => none
      | some (mag, rest3) =>
        let expStep : Option (Rat × List Char) :=
          match rest3 with
          | 'e' :: rest4 =>
            match rest4 with
            | '-' :: rest5 =>
              match takeDigits rest5 with
              | ([], _) => none
              | (es, rest6) => some (mag / ((10 : Rat) ^ digitsToNat es), rest6)
            | '+' :: rest5 =>
              match takeDigits rest5 with
              | ([], _) => none
              | (es, rest6) => some (mag * ((10 : Rat) ^ digitsToNat es), rest6)
            | _ =>
              match takeDigits rest4 with
              | ([], _) => none
              | (es, rest6) => some (mag * ((10 : Rat) ^ digitsToNat es), rest6)
          | 'E' :: rest4 =>
            match rest4 with
            | '-' :: rest5 =>
              match takeDigits rest5 with
              | ([], _) => none
              | (es, rest6) => some (mag / ((10 : Rat) ^ digitsToNat es), rest6)
            | '+' :: rest5 =>
              match takeDigits rest5 with
              | ([], _) => none
              | (es, rest6) => some (mag * ((10 : Rat) ^ digitsToNat es), rest6)
            | _ =>
              match takeDigits rest4 with
              | ([], _) => none
              | (es, rest6) => some (mag * ((10 : Rat) ^ digitsToNat es), rest6)
          | _ => some (mag, rest3)
        match expStep with
        | none => none
        | some (q, rest7) => some (if sign.1 then -q else q, rest7)

mutual

/-- Parse one JSON value and return the remaining input.  The fuel
argument bounds the mutual recursion; twice the input length plus a
constant always suffices since every two recursive steps consume a
character. -/
def parseJVal : Nat → List Char → Option (GoData × List Char)
  | 0, _ => none
  | fuel + 1, cs =>
    match skipWs cs with
    | 'n' :: 'u' :: 'l' :: 'l' :: rest => some (.null, rest)
    | 't' :: 'r' :: 'u' :: 'e' :: rest => some (.bool true, rest)
    | 'f' :: 'a' :: 'l' :: 's' :: 'e' :: rest => some (.bool false, rest)
    | '"' :: rest =>
      match parseJStringAux rest [] with
      | some (s, r) => some (.str s, r)
      | none => none
    | '[' :: rest =>
      match skipWs rest with
      | ']' :: r => some (.arr .nil, r)
      | rest' =>
        match parseJArr fuel rest' with
        | some (xs, r) => some (.arr xs, r)
        | none => none
    | '\x7b' :: rest =>
      match skipWs rest with
      | '\x7d' :: r => some (.obj .nil, r)
      | rest' =>
        match parseJObj fuel rest' with
        | some (fs, r) => some (.obj fs, r)
        | none => none
    | rest =>
      match parseJNum rest with
      | some (q, r) => some (.float q, r)
      | none => none

/-- Parse the non-empty element list of a JSON array up to `]`. -/
def parseJArr : Nat → List Char → Option (GoDataList × List Char)
  | 0, _ => none
  | fuel + 1, cs =>
    match parseJVal fuel cs with
    | none => none
    | some (v, rest) =>
      match skipWs rest with
      | ',' :: r =>
        match parseJArr fuel r with
        | some (xs, r') => some (.cons v xs, r')
        | none => none
      | ']' :: r => some (.cons v .nil, r)
      | _ => none

/-- Parse the non-empty member list of a JSON object up to the closing
brace. -/
def parseJObj : Nat → List Char → Option (GoFields × List Char)
  | 0, _ => none
  | fuel + 1, cs =>
    match skipWs cs with
    | '"' :: rest =>
      match parseJStringAux rest [] with
      | none => none
      | some (k, r1) =>
        match skipWs r1 with
        | ':' :: r2 =>
          match parseJVal fuel r2 with
          | none => none
          | some (v, r3) =>
            match skipWs r3 with
            | ',' :: r4 =>
              match parseJObj fuel r4 with
              | some (fs, r5) => some (.cons k v fs, r5)
              | none => none
            | '\x7d' :: r4 => some (.cons k v .nil, r4)
            | _ => none
        | _ => none
    | _ => none

end

/-- Go `json.Unmarshal` into an `interface{}`: one JSON value followed
only by whitespace, decoded with objects as string-keyed maps, arrays
as slices and numbers as `float64`; `none` models a decode error. -/
def jsonUnmarshal (s : String) : Option GoData :=
  match parseJVal (2 * s.data.length + 4) s.data with
  | some (v, rest) => if (skipWs rest).isEmpty then some v else none
  | none => none

/-- Whether a character is the whitespace `clean` trims. -/
def isSpaceCh (c : Char) : Bool := c == ' ' || c == '\t' || c == '\n' || c == '\r'

/-- Drop everything from the first inline ` //` comment marker on. -/
def stripCommentAux : List Char → List Char
  | [] => []
  | ' ' :: '/' :: '/' :: _ => []
  | c :: rest => c :: stripCommentAux rest

/-- Modelled from the spec: the parse package's `clean` helper called by
`ParseValue` (src/parse/value.go line 63) is not under `src/`.  Per the
spec, `ParseValue` "trims/cleans the raw token" and "an inline comment
... trailing a bullet is documentation only and must be stripped before
the value is parsed": the model strips a trailing ` //` comment and
surrounding whitespace. -/
def clean (s : String) : String :=
  let cs := (stripCommentAux s.data).dropWhile isSpaceCh
  ⟨(cs.reverse.dropWhile isSpaceCh).reverse⟩

/-- `ParseValue` (src/parse/value.go lines 61-68): clean the raw token,
try to decode it as JSON, and fall back to the cleaned text as a bare
string when decoding fails. -/
def ParseValue (src : String) : Value :=
  let c := clean src
  match jsonUnmarshal c with
  | none => ⟨.str c⟩
  | some v => ⟨v⟩

/-- Modelled from the spec: `ParseJSONBody`, the runner's default body
parser (installed at src/unnamed/part_001 line 62), is not under
`src/`; the spec says the "default implementation decodes structured
(JSON-like) bodies".  It returns the decoded structure and a `nil`
error, or a decode error. -/
def ParseJSONBody (body : String) : GoData × Option String :=
  match jsonUnmarshal body with
  | some v => (v, none)
  | none => (.null, some ("failed to parse body"))

/-- Lookup in a Go object's field list (map access). -/
def fieldsLookup : GoFields → String → Option GoData
  | .nil, _ => none
  | .cons k v fs, key => if k == key then some v else fieldsLookup fs key

/-- Walk a dotted path through nested string-keyed maps; any missing
key or non-map intermediate resolves to nothing. -/
def lookupPath : GoData → List String → Option GoData
  | d, [] => some d
  | .obj fs, k :: ks =>
    match fieldsLookup fs k with
    | some v => lookupPath v ks
    | none => none
  | _, _ :: _ => none

/-- Model of the external `m.GetOK` dotted-path lookup as `assertData`
calls it (src/unnamed/part_001 line 257): the parsed body is wrapped
under a synthetic root keyed `Data` and the key is split on `.`; the
`some`/`none` result models the library's value-and-ok pair.  The `m`
library resolves paths through string-keyed maps, which is the only
shape the runner's JSON-decoded bodies contain. -/
def getOK (data : GoData) (key : String) : Option GoData :=
  lookupPath (.obj (.cons ("Data") data .nil)) (splitDot key)

/-- Modelled from the spec: `parse.Detail`, one declared key/value pair
(the parse package is not under `src/` except `value.go`). -/
structure Detail where
  Key : String
  Value : Value

/-- Modelled from the spec: one expectation bullet, a `Detail` carrying
its originating source line number for diagnostics. -/
structure ExpectedLine where
  Number : Nat
  Key : String
  Value : Value

/-- Modelled from the spec: `parse.Request`, one documented HTTP
interaction (spec section 3); body blocks are ordered lines, and
`ExpectedBodyNumber` is the expected body block's first line number
used in failure reports. -/
structure Request where
  Method : String
  Path : String
  Details : List Detail
  Params : List Detail
  Body : List String
  ExpectedBody : List String
  ExpectedBodyNumber : Nat
  ExpectedDetails : List ExpectedLine

/-- Modelled from the spec: `parse.Group`, one parsed document (named
with its Go package qualifier to avoid the ambient algebraic `Group`). -/
structure parse.Group where
  Filename : String
  Title : String
  Requests : List Request

/-- The parts of an HTTP response the runner consumes: header fields
(each name with its ordered list of values, names distinct as in Go's
`http.Header` map), the status code, and the buffered body. -/
structure Response where
  headers : List (String × List String)
  statusCode : Nat
  body : String

/-- Modelled from the spec: `parse.Lines.Join`, joining a literal
block's lines (the parse package is not under `src/`). -/
def joinLines : List String → String
  | [] => ""
  | [l] => l
  | l :: ls => l ++ "\n" ++ joinLines ls

/-- A `key value` diagnostic line as `r.log(key, msg)` produces one
(the runner's join-with-spaces presentation wrapper is collapsed into
plain concatenation). -/
def logLine (key msg : String) : String := key ++ " " ++ msg

/-- Modelled from the spec: `parse.Detail`'s textual form `Key: Value`
used in the missing-header diagnostic (src/unnamed/part_001 line 205). -/
def detailString (key : String) (v : Value) : String := key ++ ": " ++ v.String

/-- The `expected T: E  actual T: A` diagnostic body shared by
`assertDetail` (line 242) and `assertData` (line 267), in which the
actual value is re-parsed from its `%v` rendering before printing. -/
def fmtExpectedActual (expected : Value) (actual : GoData) : String :=
  "expected " ++ expected.Type ++ ": " ++ expected.String ++ "  actual "
    ++ goTypeName actual ++ ": " ++ (ParseValue (sprintv actual)).String

/-- The eight diagnostic lines `assertBody` logs on a mismatch
(src/unnamed/part_001 lines 226-233). -/
def bodyDiagnostic (expected actual : String) : List String :=
  ["body expected:", "```", expected, "```", "actual:", "```", actual, "```"]

/-- `Runner.assertBody` (src/unnamed/part_001 lines 224-237):
byte-exact comparison of the actual body against the expected literal,
logging both on a mismatch. -/
def assertBody (actual expected : String) : Bool × List String :=
  if actual = expected then (true, [])
  else (false, bodyDiagnostic expected actual)

/-- `Runner.assertDetail` (src/unnamed/part_001 lines 239-246): plain
Go `==` of the actual response detail against the expected `Data`,
logging a diagnostic on inequality.  This path never consults the
regex machinery. -/
def assertDetail (key : String) (actual : GoData) (expected : Value) : Option (Bool × List String) :=
  match goEq actual expected.Data with
  | none => none
  | some true => some (true, [])
  | some false => some (false, [logLine key (fmtExpectedActual expected actual)])

/-- `Runner.assertData` (src/unnamed/part_001 lines 248-271): fail on a
body-parse error; fail with `no data` when the parsed body is `nil`;
resolve the dotted key; a path resolving to nothing passes exactly when
the expected `Data` is `nil`, and a resolved value is compared with the
regex-aware `Value.Equal`. -/
def assertData (errData : Option String) (data : GoData) (key : String) (expected : Value) :
    Option (Bool × List String) :=
  match errData with
  | some e =>
    some (false, [logLine key ("expected " ++ expected.Type ++ ": " ++ expected.String
      ++ "  actual: failed to parse body: " ++ e)])
  | none =>
    if isNull data then
      some (false, [logLine key ("expected " ++ expected.Type ++ ": " ++ expected.String
        ++ "  actual: no data")])
    else
      match getOK data key with
      | none =>
        if isNull expected.Data then some (true, [])
        else
          some (false, [logLine key ("expected " ++ expected.Type ++ ": " ++ expected.String
            ++ "  actual: (missing)")])
      | some actual =>
        match expected.Equal actual with
        | none => none
        | some true => some (true, [])
        | some false => some (false, [logLine key (fmtExpectedActual expected actual)])

/-- Association lookup in the flattened response-details mapping. -/
def lookupDetail : List (String × GoData) → String → Option GoData
  | [], _ => none
  | (k, v) :: rest, key => if k == key then some v else lookupDetail rest key

/-- Go map assignment `m[k] = v` on an association list. -/
def setDetail (m : List (String × GoData)) (k : String) (v : GoData) : List (String × GoData) :=
  match m with
  | [] => [(k, v)]
  | (k', v') :: rest => if k' == k then (k, v) :: rest else (k', v') :: setDetail rest k v

/-- The response-details collection of `Runner.runRequest`
(src/unnamed/part_001 lines 158-167): every header value is written
into the map in order, so the last value of a repeated header wins, and
a synthetic `Status` entry holding `float64(StatusCode)` is written
afterwards.  (Go iterates header names in unspecified order; names are
distinct map keys, so the resulting map does not depend on that
order.) -/
def collectDetails (headers : List (String × List String)) (status : Nat) : List (String × GoData) :=
  setDetail
    (headers.foldl
      (fun m kv => kv.2.foldl (fun m' v => setDetail m' kv.1 (.str v)) m) [])
    ("Status") (.float (status : Rat))

/-- Evaluation of one expectation bullet (src/unnamed/part_001 lines
190-213): a key prefixed `Data` is checked by `assertData` against the
parsed body; any other key is looked up in the flattened details — a
missing key logs a diagnostic and fails — and compared by
`assertDetail`. -/
def evalEntry (responseDetails : List (String × GoData)) (data : GoData)
    (errData : Option String) (l : ExpectedLine) : Option (Bool × List String) :=
  if strStarts l.Key ("Data") then
    assertData errData data l.Key l.Value
  else
    match lookupDetail responseDetails l.Key with
    | none =>
      some (false, [logLine l.Key ("expected " ++ l.Value.Type ++ ": "
        ++ detailString l.Key l.Value ++ "  actual <nil>: (missing)")])
    | some actual => assertDetail l.Key actual l.Value

/-- Outcome of a request's assertion phase: success, or the fail-fast
failure report `r.fail` raises with the offending source line. -/
inductive Outcome where
  | pass
  | failAt (line : Nat) (msg : String)
deriving DecidableEq

/-- Fail-fast evaluation of the expectation bullets in document order
(the `for` loop of src/unnamed/part_001 lines 190-213): the first
failing bullet produces the failure outcome and no later bullet is
evaluated. -/
def evalDetails (responseDetails : List (String × GoData)) (data : GoData)
    (errData : Option String) : List ExpectedLine → Option (Outcome × List String)
  | [] => some (.pass, [])
  | l :: rest =>
    match evalEntry responseDetails data errData l with
    | none => none
    | some (true, logs) =>
      match evalDetails responseDetails data errData rest with
      | none => none
      | some (o, logs') => some (o, logs ++ logs')
    | some (false, logs) =>
      some (.failAt l.Number ("- " ++ l.Key ++ " doesn't match"), logs)

/-- The assertion phase of `Runner.runRequest` (src/unnamed/part_001
lines 176-216): when an expected body is declared it is checked first
and a mismatch aborts the request with the body-block line number;
otherwise the expectation bullets are evaluated fail-fast.  `data` and
`errData` are the body-parse results: the source computes them lazily
at the first `Data`-prefixed bullet, which is observationally the same
as passing the (deterministic) parse results in. -/
def runAssertions (req : Request) (responseDetails : List (String × GoData))
    (actualBody : String) (data : GoData) (errData : Option String) :
    Option (Outcome × List String) :=
  if req.ExpectedBody.isEmpty then
    evalDetails responseDetails data errData req.ExpectedDetails
  else
    match assertBody actualBody (joinLines req.ExpectedBody) with
    | (true, _) => evalDetails responseDetails data errData req.ExpectedDetails
    | (false, logs) => some (.failAt req.ExpectedBodyNumber ("- body doesn't match"), logs)

/-- The response-processing tail of `Runner.runRequest`: flatten the
response details, parse the body with the default body parser, and run
the assertion phase. -/
def processResponse (req : Request) (res : Response) : Option (Outcome × List String) :=
  let details := collectDetails res.headers res.statusCode
  let parsed := ParseJSONBody res.body
  runAssertions req details res.body parsed.1 parsed.2

/-- The outbound request as `Runner.runRequest` constructs it
(src/unnamed/part_001 lines 124-147): a `Content-Length` header equal
to the body's byte length, one header per `Details` entry and one query
parameter per `Params` entry, each value rendered with `%v` of the
Value's `Data`.  (Header-name canonicalisation and the URL encoder's
percent-escaping are presentation steps of Go's `net/http` outside the
claims and are not modelled.) -/
structure HTTPRequest where
  headers : List (String × String)
  query : List (String × String)

/-- Build the outbound request from a parsed Request. -/
def buildHTTPRequest (req : Request) : HTTPRequest :=
  { headers :=
      ("Content-Length", natStr (joinLines req.Body).length)
        :: req.Details.map (fun d => (d.Key, sprintv d.Value.Data)),
    query := req.Params.map (fun d => (d.Key, sprintv d.Value.Data)) }

/-- Modelled from the spec: `parse.ParseFile` (the parse package is not
under `src/`).  Each document either parses to a Group or fails; per
the spec, "a failure in any one document is surfaced immediately" and
no partial group list is returned. -/
def ParseFile : List (Except String parse.Group) → Except String (List parse.Group)
  | [] => .ok []
  | .error e :: _ => .error e
  | .ok g :: rest =>
    match ParseFile rest with
    | .error e => .error e
    | .ok gs => .ok (g :: gs)

/-- `Runner.RunFile` (src/unnamed/part_001 lines 88-95) reduced to its
observable effects: a parse error is logged and nothing runs; otherwise
every Request of every Group is executed in order.  The result pairs
the error log with the executed (group, request) sequence. -/
def runFileModel (docs : List (Except String parse.Group)) :
    List String × List (parse.Group × Request) :=
  match ParseFile docs with
  | .error e => ([e], [])
  | .ok groups => ([], groups.flatMap (fun g => g.Requests.map (fun r => (g, r))))

theorem lookup_setDetail_self (m : List (String × GoData)) (k : String) (v : GoData) :
    lookupDetail (setDetail m k v) k = some v := by
  induction m with
  | nil => simp [setDetail, lookupDetail]
  | cons p rest ih =>
    obtain ⟨k0, v0⟩ := p
    by_cases h : k0 = k
    · subst h; simp [setDetail, lookupDetail]
    · simp [setDetail, lookupDetail, h, ih]

theorem lookup_setDetail_ne (m : List (String × GoData)) (k key : String) (v : GoData)
    (h : k ≠ key) :
    lookupDetail (setDetail m k v) key = lookupDetail m key := by
  induction m with
  | nil => simp [setDetail, lookupDetail, h]
  | cons p rest ih =>
    obtain ⟨k0, v0⟩ := p
    by_cases h0 : k0 = k
    · subst h0; simp [setDetail, lookupDetail, h]
    · simp only [setDetail, lookupDetail]
      rw [if_neg (by simpa using h0)]
      by_cases h1 : k0 = key
      · simp [lookupDetail, h1]
      · simp [lookupDetail, h1, ih]

theorem lookup_foldVals (vs : List String) (m : List (String × GoData)) (k : String) :
    lookupDetail (vs.foldl (fun m' v => setDetail m' k (.str v)) m) k
      = (match vs.getLast? with
         | some v => some (.str v)
         | none => lookupDetail m k) := by
  induction vs generalizing m with
  | nil => rfl
  | cons v vs ih =>
    rw [List.foldl_cons, ih]
    cases vs with
    | nil => simp [lookup_setDetail_self]
    | cons v2 vs2 => rfl

theorem lookup_foldVals_ne (vs : List String) (m : List (String × GoData)) (k key : String)
    (h : k ≠ key) :
    lookupDetail (vs.foldl (fun m' v => setDetail m' k (.str v)) m) key = lookupDetail m key := by
  induction vs generalizing m with
  | nil => rfl
  | cons v vs ih => rw [List.foldl_cons, ih, lookup_setDetail_ne _ _ _ _ h]

theorem lookup_foldHeaders_notMem (hs : List (String × List String))
    (m : List (String × GoData)) (key : String)
    (h : key ∉ hs.map Prod.fst) :
    lookupDetail
      (hs.foldl (fun m kv => kv.2.foldl (fun m' v => setDetail m' kv.1 (.str v)) m) m) key
      = lookupDetail m key := by
  induction hs generalizing m with
  | nil => rfl
  | cons p rest ih =>
    obtain ⟨k0, vs0⟩ := p
    simp only [List.map_cons, List.mem_cons, not_or] at h
    rw [List.foldl_cons, ih _ h.2, lookup_foldVals_ne _ _ _ _ (fun hk => h.1 hk.symm)]

theorem lookup_foldHeaders (hs : List (String × List String)) (m : List (String × GoData))
    (key : String) (vs : List String) (v : String)
    (hnd : (hs.map Prod.fst).Nodup) (hin : (key, vs) ∈ hs) (hlast : vs.getLast? = some v) :
    lookupDetail
      (hs.foldl (fun m kv => kv.2.foldl (fun m' v => setDetail m' kv.1 (.str v)) m) m) key
      = some (.str v) := by
  induction hs generalizing m with
  | nil => cases hin
  | cons p rest ih =>
    obtain ⟨k0, vs0⟩ := p
    simp only [List.map_cons, List.nodup_cons] at hnd
    rcases List.mem_cons.mp hin with heq | hin'
    · obtain ⟨hk, hv⟩ := Prod.mk.injEq .. ▸ heq
      subst hk; subst hv
      rw [List.foldl_cons, lookup_foldHeaders_notMem _ _ _ hnd.1, lookup_foldVals, hlast]
    · rw [List.foldl_cons]
      exact ih _ hnd.2 hin'

/-- C2: for every Value whose Data is a slash-delimited string whose
interior compiles, `Equal` compiles the interior and tests it against
the `%v` stringification of the argument whatever its native type
(returning `true` on a match and otherwise falling through to the plain
Go equality the source ends with); in particular
`ParseValue("/^[0-9]+$/")` equals `"123"`, does not equal `"abc"`, and
has type `"regex"`. -/
theorem C2_regex_equal :
    (∀ (s pat : String) (re : GoRegex) (other : GoData),
      strStarts s ("/") = true → strEnds s ("/") = true →
      regexInner s = some pat → compileRegex pat = some re →
      Value.Equal ⟨GoData.str s⟩ other =
        (if goMatch re (sprintv other) then some true else goEq (GoData.str s) other))
    ∧ (ParseValue "/^[0-9]+$/").Equal (GoData.str "123") = some true
    ∧ (ParseValue "/^[0-9]+$/").Equal (GoData.str "abc") = some false
    ∧ (ParseValue "/^[0-9]+$/").Type = "regex" := by
  refine ⟨?_, by decide, by decide, by decide⟩
  intro s pat re other h1 h2 h3 h4
  simp [Value.Equal, h1, h2, h3, h4]

/-- The compiled form of the pattern `^[0-9]+$`. -/
def digitsRe : GoRegex :=
  ⟨true, .seq (.seq (.cls false [('0', '9')]) (.star (.cls false [('0', '9')]))) .eps, true⟩

/-- C2 witness: the regex path applied at a concrete non-string value,
showing the argument is stringified before matching. -/
theorem C2_witness :
    Value.Equal ⟨GoData.str "/^[0-9]+$/"⟩ (GoData.float 123) = some true := by
  have h := C2_regex_equal.1 ("/^[0-9]+$/") ("^[0-9]+$") digitsRe (GoData.float 123)
    (by decide) (by decide) (by rfl) (by rfl)
  rw [h]
  decide

/-- A request carrying one string-valued header detail. -/
def reqMat : Request :=
  { Method := "GET", Path := "/hello",
    Details := [⟨"X-Name", ⟨GoData.str "Mat"⟩⟩],
    Params := [], Body := [], ExpectedBody := [], ExpectedBodyNumber := 0,
    ExpectedDetails := [] }

/-- C3 counterexample: the header value actually sent for a string
Value is the bare `%v` rendering `Mat`, while `Value.String` — the
canonical JSON rendering the claim names — is `"Mat"` with quotes, so
the wire value is not the `Value.String()` rendering. -/
theorem C3_counterexample :
    (buildHTTPRequest reqMat).headers = [("Content-Length", "0"), ("X-Name", "Mat")]
    ∧ sprintv (GoData.str "Mat") = "Mat"
    ∧ Value.String ⟨GoData.str "Mat"⟩ = "\"Mat\""
    ∧ ("Mat" : String) ≠ "\"Mat\"" := by
  refine ⟨by decide, by decide, by decide, by decide⟩

/-- C3 (amended): every Details entry is added as a request header and
every Params entry as a query parameter, with the value stringified by
Go fmt's default `%v` rendering of the Value's Data — which agrees with
`Value.String()` on numbers and booleans but is not the canonical JSON
rendering in general. -/
theorem C3_request_encoding (req : Request) (d : Detail) :
    (d ∈ req.Details → (d.Key, sprintv d.Value.Data) ∈ (buildHTTPRequest req).headers)
    ∧ (d ∈ req.Params → (d.Key, sprintv d.Value.Data) ∈ (buildHTTPRequest req).query)
    ∧ (∀ q : Rat, sprintv (GoData.float q) = Value.String ⟨GoData.float q⟩)
    ∧ (∀ b : Bool, sprintv (GoData.bool b) = Value.String ⟨GoData.bool b⟩) := by
  refine ⟨?_, ?_, fun q => rfl, fun b => rfl⟩
  · intro hm
    exact List.mem_cons_of_mem _ (List.mem_map_of_mem _ hm)
  · intro hm
    exact List.mem_map_of_mem _ hm

/-- C3 witness: the concrete header pair produced for the request
above. -/
theorem C3_witness :
    ("X-Name", "Mat") ∈ (buildHTTPRequest reqMat).headers := by
  have h := (C3_request_encoding reqMat ⟨"X-Name", ⟨GoData.str "Mat"⟩⟩).1
    (List.mem_singleton.mpr rfl)
  exact h

/-- C4 counterexample: a float64 Value and an integer argument denoting
the same number compare unequal — the claimed normalization does not
happen. -/
theorem C4_counterexample :
    Value.Equal ⟨GoData.float 30⟩ (GoData.int 30) = some false := by rfl

/-- C4 (amended): `Equal` performs no numeric normalization — Go
interface equality requires identical dynamic types, so numbers of
differing dynamic representations always compare unequal and numbers
compare equal exactly when representation and value both agree.  (In
this codebase JSON decoding yields float64 for every number, so both
sides coincide in representation in practice.) -/
theorem C4_no_numeric_normalization (n : Int) (q : Rat) :
    Value.Equal ⟨GoData.float q⟩ (GoData.int n) = some false
    ∧ Value.Equal ⟨GoData.int n⟩ (GoData.float q) = some false
    ∧ Value.Equal ⟨GoData.float q⟩ (GoData.float q) = some true
    ∧ Value.Equal ⟨GoData.int n⟩ (GoData.int n) = some true := by
  refine ⟨rfl, rfl, ?_, ?_⟩ <;> simp [Value.Equal, goEq]

/-- C10: on the slash-delimited Data `"/(/"` the interior `(` does not
compile, so `Equal` panics (modelled `none`) instead of reporting a
failed match — `Equal` is not total over string Data — while a valid
pattern matches normally. -/
theorem C10_equal_panics_on_bad_regex :
    Value.Equal ⟨GoData.str "/(/"⟩ (GoData.str "x") = none
    ∧ regexInner "/(/" = some "("
    ∧ compileRegex "(" = none
    ∧ Value.Equal ⟨GoData.str "/abc/"⟩ (GoData.str "xabcy") = some true := by
  refine ⟨by rfl, by rfl, by rfl, by decide⟩

/-- C1 counterexample: for the response body `null` — which the default
body parser decodes to `nil` with no error — the dotted path `Data`
resolves to a value (`null`) which the expected null Value's `Equal`
accepts, yet the assertion fails: `assertData` short-circuits with its
`no data` diagnostic before any path resolution, contradicting the
claimed if-and-only-if. -/
theorem C1_counterexample :
    ParseJSONBody "null" = (GoData.null, none)
    ∧ getOK GoData.null "Data" = some GoData.null
    ∧ Value.Equal ⟨GoData.null⟩ GoData.null = some true
    ∧ (assertData none GoData.null "Data" ⟨GoData.null⟩).map Prod.fst = some false := by
  refine ⟨rfl, rfl, rfl, rfl⟩

/-- C1 (amended): provided the body parsed without error to a non-null
structure, a `Data`-keyed assertion passes on an unresolved path
exactly when the expected Data is null (otherwise failing with the
missing diagnostic), and on a resolved path behaves exactly as the
regex-aware `Value.Equal` (including its possible panic); a null parsed
body instead always fails with the `no data` diagnostic. -/
theorem C1_data_assertion (data : GoData) (key : String) (v : Value)
    (h : isNull data = false) :
    (getOK data key = none →
      (assertData none data key v).map Prod.fst = some (isNull v.Data))
    ∧ (∀ a, getOK data key = some a →
      (assertData none data key v).map Prod.fst = Value.Equal v a)
    ∧ (getOK data key = none → isNull v.Data = false →
      assertData none data key v
        = some (false, [logLine key ("expected " ++ v.Type ++ ": " ++ v.String
            ++ "  actual: (missing)")])) := by
  refine ⟨?_, ?_, ?_⟩
  · intro hg
    simp only [assertData, h, Bool.false_eq_true, if_false, hg]
    cases hv : isNull v.Data <;> simp [hv]
  · intro a hg
    simp only [assertData, h, Bool.false_eq_true, if_false, hg]
    cases hE : Value.Equal v a with
    | none => simp
    | some b => cases b <;> simp
  · intro hg hv
    simp only [assertData, h, Bool.false_eq_true, if_false, hg, hv]

/-- The parsed body of the nested-data example `{"user":{"name":"Mat"}}`. -/
def userBody : GoData :=
  .obj (.cons ("user") (.obj (.cons ("name") (.str "Mat") .nil)) .nil)

/-- C1 witness: the amended statement at the spec's nested example —
`Data.user.name` resolves and is compared by `Equal`, and the absent
`Data.user.age` passes against an expected null. -/
theorem C1_witness :
    (assertData none userBody "Data.user.name" ⟨GoData.str "Mat"⟩).map Prod.fst
      = Value.Equal ⟨GoData.str "Mat"⟩ (GoData.str "Mat")
    ∧ (assertData none userBody "Data.user.age" ⟨GoData.null⟩).map Prod.fst = some true := by
  constructor
  · exact (C1_data_assertion userBody "Data.user.name" ⟨GoData.str "Mat"⟩ rfl).2.1
      (GoData.str "Mat") rfl
  · exact (C1_data_assertion userBody "Data.user.age" ⟨GoData.null⟩ rfl).1 rfl

/-- C5: a non-`Data` expectation key that is absent from the flattened
response mapping always fails, and a present key passes exactly as
plain Go equality of the raw actual value against the expected Data
decides; this path is not regex-aware — the same actual/expected pair
that the regex-aware `Equal` accepts is rejected by `assertDetail`. -/
theorem C5_plain_detail (details : List (String × GoData)) (data : GoData)
    (errData : Option String) (l : ExpectedLine)
    (h : strStarts l.Key ("Data") = false) :
    (lookupDetail details l.Key = none →
      (evalEntry details data errData l).map Prod.fst = some false)
    ∧ (∀ a b, lookupDetail details l.Key = some a → goEq a l.Value.Data = some b →
      (evalEntry details data errData l).map Prod.fst = some b)
    ∧ (Value.Equal ⟨GoData.str "/a/"⟩ (GoData.str "abc") = some true
      ∧ (assertDetail ("H") (GoData.str "abc") ⟨GoData.str "/a/"⟩).map Prod.fst = some false) := by
  refine ⟨?_, ?_, by decide, by rfl⟩
  · intro hlk
    simp [evalEntry, h, hlk]
  · intro a b hlk hge
    simp only [evalEntry, h, Bool.false_eq_true, if_false, hlk, assertDetail, hge]
    cases b <;> simp

/-- C5 witness: the synthetic `Status` entry compared against its
expected value through the plain-equality path. -/
theorem C5_witness :
    (evalEntry [("Status", GoData.float 200)] GoData.null none
      ⟨3, "Status", ⟨GoData.float 200⟩⟩).map Prod.fst = some true := by
  exact (C5_plain_detail [("Status", GoData.float 200)] GoData.null none
    ⟨3, "Status", ⟨GoData.float 200⟩⟩ (by decide)).2.1 (GoData.float 200) true rfl (by decide)

/-- C6: under Go's map semantics (header names distinct), the flattened
response mapping carries, for every header that has values, exactly the
last occurring value, and a synthetic `Status` entry holding the
numeric status code as a float64. -/
theorem C6_flatten (hs : List (String × List String)) (st : Nat)
    (hnd : (hs.map Prod.fst).Nodup) :
    lookupDetail (collectDetails hs st) "Status" = some (GoData.float (st : Rat))
    ∧ ∀ k vs v, (k, vs) ∈ hs → vs.getLast? = some v → k ≠ "Status" →
      lookupDetail (collectDetails hs st) k = some (GoData.str v) := by
  constructor
  · exact lookup_setDetail_self ..
  · intro k vs v hin hlast hk
    unfold collectDetails
    rw [lookup_setDetail_ne _ _ _ _ (Ne.symm hk)]
    exact lookup_foldHeaders hs [] k vs v hnd hin hlast

/-- C6 witness: a repeated `Set-Cookie` header keeps only its last
value, and `Status` holds the numeric code. -/
theorem C6_witness :
    lookupDetail (collectDetails [("Set-Cookie", ["a=1", "b=2"]),
        ("Content-Type", ["text/html"])] 200) "Status"
      = some (GoData.float ((200 : Nat) : Rat))
    ∧ lookupDetail (collectDetails [("Set-Cookie", ["a=1", "b=2"]),
        ("Content-Type", ["text/html"])] 200) "Set-Cookie"
      = some (GoData.str "b=2") := by
  have h := C6_flatten [("Set-Cookie", ["a=1", "b=2"]), ("Content-Type", ["text/html"])] 200
    (by decide)
  exact ⟨h.1, h.2 ("Set-Cookie") ["a=1", "b=2"] ("b=2") (by simp) rfl (by decide)⟩

/-- C7: a declared expected body that differs from the actual body
fails the request at the body block's line with a diagnostic containing
both bodies, and the outcome is the same whatever the expectation
bullets are — none of them is evaluated. -/
theorem C7_expected_body (req : Request) (details : List (String × GoData))
    (body : String) (data : GoData) (errData : Option String)
    (hne : req.ExpectedBody ≠ []) (hb : body ≠ joinLines req.ExpectedBody) :
    runAssertions req details body data errData
      = some (.failAt req.ExpectedBodyNumber ("- body doesn't match"),
          bodyDiagnostic (joinLines req.ExpectedBody) body)
    ∧ joinLines req.ExpectedBody ∈ bodyDiagnostic (joinLines req.ExpectedBody) body
    ∧ body ∈ bodyDiagnostic (joinLines req.ExpectedBody) body
    ∧ ∀ eds, runAssertions { req with ExpectedDetails := eds } details body data errData
        = runAssertions req details body data errData := by
  have hie : req.ExpectedBody.isEmpty = false := by
    cases hEB : req.ExpectedBody with
    | nil => exact absurd hEB hne
    | cons a l => rfl
  have hab : assertBody body (joinLines req.ExpectedBody)
      = (false, bodyDiagnostic (joinLines req.ExpectedBody) body) := by
    simp [assertBody, hb]
  refine ⟨?_, by simp [bodyDiagnostic], by simp [bodyDiagnostic], ?_⟩
  · simp [runAssertions, hie, hab]
  · intro eds
    simp [runAssertions, hie, hab]

/-- A request expecting the greeting body of the fixture document. -/
def reqHello : Request :=
  { Method := "GET", Path := "/hello", Details := [], Params := [], Body := [],
    ExpectedBody := ["Hello World."], ExpectedBodyNumber := 12,
    ExpectedDetails := [⟨11, "Status", ⟨GoData.float 200⟩⟩] }

/-- C7 witness: the fixture request failing on a different body. -/
theorem C7_witness :
    runAssertions reqHello [] "Hello Mat." GoData.null none
      = some (.failAt 12 ("- body doesn't match"),
          bodyDiagnostic ("Hello World.") ("Hello Mat.")) := by
  exact (C7_expected_body reqHello [] "Hello Mat." GoData.null none
    (by decide) (by decide)).1

/-- C8: when every bullet before some failing bullet passes, evaluation
stops at that bullet: the outcome reports its line, and the bullets
after it are never evaluated — the result does not depend on them. -/
theorem C8_fail_fast (details : List (String × GoData)) (data : GoData)
    (errData : Option String) (pre : List ExpectedLine) (d : ExpectedLine)
    (post post' : List ExpectedLine)
    (hpre : ∀ l ∈ pre, (evalEntry details data errData l).map Prod.fst = some true)
    (hd : (evalEntry details data errData d).map Prod.fst = some false) :
    (evalDetails details data errData (pre ++ d :: post)).map Prod.fst
      = some (Outcome.failAt d.Number ("- " ++ d.Key ++ " doesn't match"))
    ∧ evalDetails details data errData (pre ++ d :: post)
      = evalDetails details data errData (pre ++ d :: post') := by
  induction pre with
  | nil =>
    cases hE : evalEntry details data errData d with
    | none => rw [hE] at hd; simp at hd
    | some p =>
      obtain ⟨b, logs⟩ := p
      rw [hE] at hd
      simp at hd
      subst hd
      exact ⟨by simp [evalDetails, hE], by simp [evalDetails, hE]⟩
  | cons l pre ih =>
    have hl := hpre l (by simp)
    have hpre' : ∀ e ∈ pre, (evalEntry details data errData e).map Prod.fst = some true :=
      fun e he => hpre e (by simp [he])
    obtain ⟨ih1, ih2⟩ := ih hpre'
    cases hE : evalEntry details data errData l with
    | none => rw [hE] at hl; simp at hl
    | some p =>
      obtain ⟨b, logs⟩ := p
      rw [hE] at hl
      simp at hl
      subst hl
      constructor
      · simp only [List.cons_append, evalDetails, hE]
        cases hED : evalDetails details data errData (pre ++ d :: post) with
        | none => rw [hED] at ih1; simp at ih1
        | some q =>
          obtain ⟨o, ls⟩ := q
          rw [hED] at ih1
          simp at ih1
          subst ih1
          simp
      · have ih2' : evalDetails details data errData (pre.append (d :: post))
            = evalDetails details data errData (pre.append (d :: post')) := ih2
        simp only [List.cons_append, evalDetails, hE]
        rw [ih2']

/-- A passing `Status` expectation bullet. -/
def bulletStatus : ExpectedLine := ⟨2, "Status", ⟨GoData.float 200⟩⟩

/-- A failing `Content-Type` expectation bullet (the header is absent
from the details used in the C8 witness). -/
def bulletCT : ExpectedLine := ⟨3, "Content-Type", ⟨GoData.str "text/html"⟩⟩

/-- A bullet placed after the failing one. -/
def bulletAfter : ExpectedLine := ⟨4, "X-Never", ⟨GoData.str "x"⟩⟩

/-- C8 witness: with a passing bullet followed by a failing one, the
evaluation reports the failing bullet's line and its result is
identical with the trailing bullet removed. -/
theorem C8_witness :
    (evalDetails [("Status", GoData.float 200)] GoData.null none
      [bulletStatus, bulletCT, bulletAfter]).map Prod.fst
      = some (Outcome.failAt 3 ("- Content-Type doesn't match"))
    ∧ evalDetails [("Status", GoData.float 200)] GoData.null none
        [bulletStatus, bulletCT, bulletAfter]
      = evalDetails [("Status", GoData.float 200)] GoData.null none
        [bulletStatus, bulletCT] := by
  have h := C8_fail_fast [("Status", GoData.float 200)] GoData.null none
    [bulletStatus] bulletCT [bulletAfter] []
    (by
      intro e he
      rw [List.mem_singleton] at he
      subst he
      decide)
    (by decide)
  exact h

/-- C9: when any requested document fails to parse, an error is
surfaced and no Request of any document is executed. -/
theorem C9_parse_failure_aborts (docs : List (Except String parse.Group)) (e : String)
    (h : Except.error e ∈ docs) :
    (runFileModel docs).2 = []
    ∧ ∃ e', Except.error e' ∈ docs ∧ runFileModel docs = ([e'], []) := by
  have hpf : ∃ e', Except.error e' ∈ docs ∧ ParseFile docs = .error e' := by
    induction docs with
    | nil => cases h
    | cons dc rest ih =>
      cases dc with
      | error e0 => exact ⟨e0, by simp, rfl⟩
      | ok g =>
        rcases List.mem_cons.mp h with heq | hin
        · exact absurd heq (by simp)
        · obtain ⟨e', he', hpe⟩ := ih hin
          exact ⟨e', by simp [he'], by simp [ParseFile, hpe]⟩
  obtain ⟨e', he', hpe⟩ := hpf
  refine ⟨?_, e', he', ?_⟩ <;> simp [runFileModel, hpe]

/-- A well-formed group whose request would run had parsing succeeded. -/
def groupHello : parse.Group := ⟨"hello.silk.md", "Hello API", [reqHello]⟩

/-- C9 witness: a batch in which the second document fails to parse
executes nothing. -/
theorem C9_witness :
    (runFileModel [Except.ok groupHello, Except.error ("parse error")]).2 = [] := by
  exact (C9_parse_failure_aborts [Except.ok groupHello, Except.error ("parse error")]
    ("parse error") (by simp)).1
